import Mathlib

/-!
# Verification of the bronze-layer ingestion pipeline

Shallow embedding of `import_bronze.py`: the row projector, the dynamic
column reconciliation, the batched upsert writer, the per-file / per-quarter
orchestration, and the quarter-range expansion.  Pure Python expressions are
translated into Lean functions; the calls to the storage backend are made
explicit through an effect trace and a `Backend` oracle that decides what
each external call returns (or whether it raises).
-/

namespace Bronze

/-- A value stored in a projected row: Python `str`, `int`, or `None`. -/
inductive Val where
  | s (v : String)
  | n (v : Nat)
  | null
deriving DecidableEq, Repr

/-- A projected row: the Python `dict` built in `ingest_file`, in insertion
order, as an association list from column name to value. -/
abbrev Row := List (String × Val)

/-- Constant `KEY_COLUMNS` from the source: columns managed by the schema, never
sourced from the file. -/
def KEY_COLUMNS : List String :=
  ["id", "cu_number", "cycle_date", "year", "quarter", "period",
   "source_url", "imported_at"]

/-- The metadata columns that `ingest_file` writes into every row before
spreading the file columns. -/
def METADATA_COLUMNS : List String :=
  ["cu_number", "cycle_date", "year", "quarter", "period", "source_url"]

/-- Constant `BATCH_SIZE` from the source. -/
def BATCH_SIZE : Nat := 200

/-- Constant `SOURCE_FILES` from the source: file name to destination table. -/
def SOURCE_FILES : List (String × String) :=
  [("FOICU.txt", "bronze_foicu"),
   ("FS220.txt", "bronze_fs220"),
   ("FS220A.txt", "bronze_fs220a"),
   ("FS220B.txt", "bronze_fs220b"),
   ("FS220C.txt", "bronze_fs220c"),
   ("FS220D.txt", "bronze_fs220d"),
   ("FS220G.txt", "bronze_fs220g"),
   ("FS220H.txt", "bronze_fs220h"),
   ("FS220I.txt", "bronze_fs220i"),
   ("FS220J.txt", "bronze_fs220j"),
   ("FS220K.txt", "bronze_fs220k"),
   ("FS220L.txt", "bronze_fs220l"),
   ("FS220M.txt", "bronze_fs220m"),
   ("FS220N.txt", "bronze_fs220n"),
   ("FS220P.txt", "bronze_fs220p"),
   ("FS220Q.txt", "bronze_fs220q"),
   ("FS220R.txt", "bronze_fs220r"),
   ("FS220S.txt", "bronze_fs220s")]

/-- Constant `NCUA_BASE_URL` from the source. -/
def NCUA_BASE_URL : String := "https://www.ncua.gov/files/publications/analysis"

/-- One CSV record (`csv.DictReader` row): column name to string value; a
missing key models both an absent header and a `None` rest value (both are
falsy in the Python expressions that consume records). -/
abbrev Record := List (String × String)

/-- Python `str.strip()`: remove leading and trailing whitespace (modelled
over space, tab, CR and LF, the whitespace that occurs in these files). -/
def pystrip (s : String) : String :=
  ⟨((s.data.dropWhile Char.isWhitespace).reverse.dropWhile Char.isWhitespace).reverse⟩

/-- Python `record.get(k1) or record.get(k2) or ""`: the first truthy
(present and non-empty) of the two fields, else the empty string. -/
def pyGetOr (record : Record) (k1 k2 : String) : String :=
  match record.lookup k1 with
  | some v => if v = "" then (record.lookup k2).getD "" else v
  | none => (record.lookup k2).getD ""

/-- The value spread into the row for one file column (lines 257-258):
`record.get(header, "")`, with the empty string normalised to null. -/
def spreadVal (record : Record) (h : String) : Val :=
  if (record.lookup h).getD "" = "" then Val.null else Val.s ((record.lookup h).getD "")

/-- The row projector of `ingest_file` (lines 240-260): extract the
institution identifier with the two-variant fallback, drop the record if it
is blank after trimming, otherwise build the metadata columns and spread
every non-key file column verbatim (empty string to null). -/
def project (headers : List String) (record : Record) (year quarter : Nat)
    (period source_url : String) : Option Row :=
  let cu := pystrip (pyGetOr record "CU_NUMBER" "CU_Number")
  if cu = "" then none
  else
    let cyc := pystrip (pyGetOr record "CYCLE_DATE" "Cycle_Date")
    some ([("cu_number", Val.s cu),
           ("cycle_date", if cyc = "" then Val.null else Val.s cyc),
           ("year", Val.n year),
           ("quarter", Val.n quarter),
           ("period", Val.s period),
           ("source_url", Val.s source_url)]
          ++ (headers.filter (fun h => decide (h ∉ KEY_COLUMNS))).map
              (fun h => (h, spreadVal record h)))

/-- Function `parse_quarter` (lines 107-111): match `^(\d{4})-Q([1-4])$` (49 and 52
are the code points of `1` and `4`); `none` models the `sys.exit` on a
malformed identifier. -/
def parse_quarter (s : String) : Option (Nat × Nat) :=
  match s.data with
  | [a, b, c, d, e, f, g] =>
    if a.isDigit ∧ b.isDigit ∧ c.isDigit ∧ d.isDigit ∧ e = '-' ∧ f = 'Q'
        ∧ (49 ≤ g.toNat ∧ g.toNat ≤ 52) then
      some (1000 * (a.toNat - 48) + 100 * (b.toNat - 48)
              + 10 * (c.toNat - 48) + (d.toNat - 48),
            g.toNat - 48)
    else none
  | _ => none

/-- Constant `QUARTER_MONTH` from the source (a `KeyError` outside 1-4 is
unreachable because quarters come from `parse_quarter`). -/
def quarter_month (q : Nat) : String :=
  match q with
  | 1 => "03"
  | 2 => "06"
  | 3 => "09"
  | 4 => "12"
  | _ => ""

/-- Function `quarter_url` (lines 114-115). -/
def quarter_url (year quarter : Nat) : String :=
  NCUA_BASE_URL ++ "/call-report-data-" ++ toString year ++ "-"
    ++ quarter_month quarter ++ ".zip"

/-- The label `f"{y}-Q{q}"` appended by the loop in `quarter_range`. -/
def quarter_label (y q : Nat) : String :=
  toString y ++ "-Q" ++ toString q

/-- The `while (y, q) <= (ey, eq)` loop of `quarter_range` (lines 122-127):
append the current label, advance the quarter, wrap Q4 to Q1 of the next
year. -/
def quarterRangeAux (ey eqq y q : Nat) : List String :=
  if h : y < ey ∨ (y = ey ∧ q ≤ eqq) then
    quarter_label y q ::
      (if 4 ≤ q then quarterRangeAux ey eqq (y + 1) 1
       else quarterRangeAux ey eqq y (q + 1))
  else []
termination_by (ey + 1 - y, 5 - q)
decreasing_by
  · apply Prod.Lex.left
    omega
  · apply Prod.Lex.right
    omega

/-- Function `quarter_range` (lines 118-130): parse both endpoints, run the loop;
`none` models the two `sys.exit` branches (malformed endpoint, empty
range). -/
def quarter_range (startQ endQ : String) : Option (List String) :=
  match parse_quarter startQ, parse_quarter endQ with
  | some (sy, sq), some (ey, eqq) =>
    let l := quarterRangeAux ey eqq sy sq
    if l = [] then none else some l
  | _, _ => none

/-- The chronologically ordered inclusive enumeration of the quarters from
`(sy, sq)` to `(ey, eqq)`, written independently of the loop: quarter
`(y, q)` is encoded as `4 * y + (q - 1)` and the consecutive codes are
enumerated.  This is the claim's description of what the expansion must
return. -/
def chronoQuarters (sy sq ey eqq : Nat) : List String :=
  (List.range' (4 * sy + sq - 1) (4 * ey + eqq + 1 - (4 * sy + sq))).map
    (fun e => quarter_label (e / 4) (e % 4 + 1))

/-! ## Destination-table state and the upsert write

Modelled from the spec: the storage backend itself (Supabase/Postgres) is
external to the repository, so its insert-or-update primitive is modelled
from the §4.4 contract the code relies on with
`upsert(batch, on_conflict="cu_number,year,quarter")` (lines 266-268): a
table is a list of stored rows; a row whose conflict key matches an
existing row overwrites that row's columns in place, otherwise it is
appended. -/

/-- The conflict key of a row: the values under `cu_number`, `year`,
`quarter` (the `on_conflict` columns of line 267). -/
def rowKey (r : Row) : Option Val × Option Val × Option Val :=
  (r.lookup "cu_number", r.lookup "year", r.lookup "quarter")

/-- Modelled from the spec: insert-or-update of a single row keyed on the
composite conflict key (§4.4): overwrite every matching stored row's
columns with the incoming row, or append the row if no key matches. -/
def upsertRow (t : List Row) (r : Row) : List Row :=
  if ∃ x ∈ t, rowKey x = rowKey r then
    t.map (fun x => if rowKey x = rowKey r then r else x)
  else t ++ [r]

/-- Modelled from the spec: one batch submitted as a single insert-or-update
operation (§4.4), row by row in batch order. -/
def upsertAll (t : List Row) (rs : List Row) : List Row :=
  rs.foldl upsertRow t

/-- Fuel-driven chunking of the row list; the fuel is the list length, which
always suffices. -/
def toBatchesAux {α : Type} : Nat → List α → List (List α)
  | _, [] => []
  | 0, _ :: _ => []
  | fuel + 1, x :: xs =>
    (x :: xs).take BATCH_SIZE :: toBatchesAux fuel ((x :: xs).drop BATCH_SIZE)

/-- The batch partition of `ingest_file` (line 264):
`range(0, len(rows), BATCH_SIZE)` slices of the projected row list. -/
def toBatches {α : Type} (l : List α) : List (List α) :=
  toBatchesAux l.length l

/-- The full write phase of one file ingestion (lines 263-268): upsert the
projected rows batch by batch into the table state. -/
def ingestRows (t : List Row) (rows : List Row) : List Row :=
  (toBatches rows).foldl upsertAll t

/-- The composite key identifies at most one stored row. -/
def UniqueKeys (t : List Row) : Prop := (t.map rowKey).Nodup

/-- Table states reachable by the pipeline: the table is created empty (out
of band, with only reserved columns) and only ever mutated by batched
upserts of projected rows. -/
inductive Reachable : List Row → Prop where
  | empty : Reachable []
  | ingest (t rows) : Reachable t → Reachable (ingestRows t rows)

/-- The most recent row of `rs` carrying key `k`, if any. -/
def lastUpd (rs : List Row) (k : Option Val × Option Val × Option Val) :
    Option Row :=
  match rs with
  | [] => none
  | r :: rest =>
    match lastUpd rest k with
    | some x => some x
    | none => if rowKey r = k then some r else none

lemma lastUpd_concat (rest : List Row) (r : Row) (k) :
    lastUpd (rest ++ [r]) k = if rowKey r = k then some r else lastUpd rest k := by
  induction rest with
  | nil => simp [lastUpd]
  | cons x rest ih =>
    show (match lastUpd (rest ++ [r]) k with
          | some y => some y
          | none => if rowKey x = k then some x else none) = _
    rw [ih]
    by_cases hk : rowKey r = k
    · simp [hk]
    · simp only [if_neg hk]
      rfl

lemma chunk_flatten {α : Type} (l : List α) : (toBatches l).flatten = l := by
  suffices h : ∀ fuel (m : List α), m.length ≤ fuel → (toBatchesAux fuel m).flatten = m by
    exact h l.length l le_rfl
  intro fuel
  induction fuel with
  | zero =>
    intro m hm
    match m with
    | [] => rfl
  | succ fuel ih =>
    intro m hm
    match m with
    | [] => rfl
    | x :: xs =>
      simp only [toBatchesAux, List.flatten_cons]
      rw [ih ((x :: xs).drop BATCH_SIZE) (by simp [BATCH_SIZE] at hm ⊢; omega)]
      exact List.take_append_drop _ _

lemma ingestRows_eq_upsertAll (t rows : List Row) :
    ingestRows t rows = upsertAll t rows := by
  unfold ingestRows upsertAll
  rw [show rows = (toBatches rows).flatten from (chunk_flatten rows).symm,
      List.foldl_flatten]
  rw [chunk_flatten rows]

lemma rowKey_updated (r x : Row) :
    rowKey (if rowKey x = rowKey r then r else x) = rowKey x := by
  by_cases h : rowKey x = rowKey r <;> simp [h]

lemma keys_upsertRow_of_mem {t : List Row} {r : Row}
    (h : ∃ x ∈ t, rowKey x = rowKey r) :
    (upsertRow t r).map rowKey = t.map rowKey := by
  rw [upsertRow, if_pos h, List.map_map]
  exact List.map_congr_left fun x _ => rowKey_updated r x

lemma keys_upsertRow_of_not_mem {t : List Row} {r : Row}
    (h : ¬ ∃ x ∈ t, rowKey x = rowKey r) :
    (upsertRow t r).map rowKey = t.map rowKey ++ [rowKey r] := by
  rw [upsertRow, if_neg h, List.map_append, List.map_singleton]

lemma mem_keys_upsertRow {t : List Row} {r : Row} {k}
    (h : k ∈ t.map rowKey) : k ∈ (upsertRow t r).map rowKey := by
  by_cases hm : ∃ x ∈ t, rowKey x = rowKey r
  · rw [keys_upsertRow_of_mem hm]; exact h
  · rw [keys_upsertRow_of_not_mem hm]; exact List.mem_append_left _ h

lemma self_mem_keys_upsertRow (t : List Row) (r : Row) :
    rowKey r ∈ (upsertRow t r).map rowKey := by
  by_cases hm : ∃ x ∈ t, rowKey x = rowKey r
  · rw [keys_upsertRow_of_mem hm]
    obtain ⟨x, hx, hk⟩ := hm
    exact hk ▸ List.mem_map_of_mem rowKey hx
  · rw [keys_upsertRow_of_not_mem hm]
    simp

lemma upsertAll_append (t l1 l2 : List Row) :
    upsertAll t (l1 ++ l2) = upsertAll (upsertAll t l1) l2 :=
  List.foldl_append _ _ _ _

lemma mem_keys_upsertAll {rs : List Row} :
    ∀ {t : List Row} {k}, k ∈ t.map rowKey → k ∈ (upsertAll t rs).map rowKey := by
  induction rs with
  | nil => intro t k h; exact h
  | cons r rest ih =>
    intro t k h
    exact ih (mem_keys_upsertRow h)

lemma batch_mem_keys_upsertAll {rs : List Row} :
    ∀ {t : List Row} {r : Row}, r ∈ rs → rowKey r ∈ (upsertAll t rs).map rowKey := by
  induction rs with
  | nil => intro t r h; cases h
  | cons a rest ih =>
    intro t r h
    rcases List.mem_cons.1 h with h | h
    · subst h
      show rowKey r ∈ (upsertAll (upsertRow t r) rest).map rowKey
      exact mem_keys_upsertAll (self_mem_keys_upsertRow t r)
    · exact ih h

lemma pointwise_step (r x : Row) (rest : List Row) :
    (lastUpd rest (rowKey (if rowKey x = rowKey r then r else x))).getD
        (if rowKey x = rowKey r then r else x)
      = (lastUpd (r :: rest) (rowKey x)).getD x := by
  rw [rowKey_updated]
  show (lastUpd rest (rowKey x)).getD _
      = (match lastUpd rest (rowKey x) with
         | some y => some y
         | none => if rowKey r = rowKey x then some r else none).getD x
  cases hl : lastUpd rest (rowKey x) with
  | some y => simp
  | none =>
    by_cases hx : rowKey x = rowKey r
    · simp [hx, if_pos hx.symm]
    · simp [hx, show ¬ rowKey r = rowKey x from fun h => hx h.symm]

lemma upsertAll_eq_map (rs : List Row) :
    ∀ t : List Row, (∀ r ∈ rs, rowKey r ∈ t.map rowKey) →
      upsertAll t rs = t.map (fun x => (lastUpd rs (rowKey x)).getD x) := by
  induction rs with
  | nil =>
    intro t _
    simp [upsertAll, lastUpd]
  | cons r rest ih =>
    intro t hk
    have hr : ∃ x ∈ t, rowKey x = rowKey r := by
      obtain ⟨x, hx, hxy⟩ := List.mem_map.1 (hk r (List.mem_cons_self r rest))
      exact ⟨x, hx, hxy⟩
    have hstep : upsertRow t r = t.map (fun x => if rowKey x = rowKey r then r else x) := by
      rw [upsertRow, if_pos hr]
    have hkeys : (upsertRow t r).map rowKey = t.map rowKey := keys_upsertRow_of_mem hr
    have hrest : ∀ r' ∈ rest, rowKey r' ∈ (upsertRow t r).map rowKey := by
      intro r' h
      rw [hkeys]
      exact hk r' (List.mem_cons_of_mem _ h)
    calc upsertAll t (r :: rest) = upsertAll (upsertRow t r) rest := rfl
      _ = (upsertRow t r).map (fun x => (lastUpd rest (rowKey x)).getD x) := ih _ hrest
      _ = t.map (fun x => (lastUpd (r :: rest) (rowKey x)).getD x) := by
          rw [hstep, List.map_map]
          apply List.map_congr_left
          intro x _
          simp only [Function.comp_apply]
          exact pointwise_step r x rest

lemma mem_upsertAll_lastUpd (rs : List Row) :
    ∀ (t : List Row) (x : Row), x ∈ upsertAll t rs →
      ∀ r', lastUpd rs (rowKey x) = some r' → x = r' := by
  induction rs using List.reverseRecOn with
  | nil =>
    intro t x _ r' hc
    simp [lastUpd] at hc
  | append_singleton rest r ih =>
    intro t x hx r' hl
    rw [upsertAll_append] at hx
    have hx' : x ∈ upsertRow (upsertAll t rest) r := hx
    rw [lastUpd_concat] at hl
    by_cases hm : ∃ y ∈ upsertAll t rest, rowKey y = rowKey r
    · rw [upsertRow, if_pos hm] at hx'
      obtain ⟨y, hy, hxy⟩ := List.mem_map.1 hx'
      by_cases hyk : rowKey y = rowKey r
      · rw [if_pos hyk] at hxy
        subst hxy
        rw [if_pos rfl] at hl
        exact Option.some.inj hl
      · rw [if_neg hyk] at hxy
        subst hxy
        rw [if_neg (fun h => hyk h.symm)] at hl
        exact ih t y hy r' hl
    · rw [upsertRow, if_neg hm] at hx'
      rcases List.mem_append.1 hx' with hx'' | hx''
      · have hxk : ¬ rowKey x = rowKey r := fun h => hm ⟨x, hx'', h⟩
        rw [if_neg (fun h => hxk h.symm)] at hl
        exact ih t x hx'' r' hl
      · rw [List.mem_singleton] at hx''
        subst hx''
        rw [if_pos rfl] at hl
        exact Option.some.inj hl

/-- Re-applying the same row list to the table it produced is the
identity. -/
lemma upsertAll_idem (t rs : List Row) :
    upsertAll (upsertAll t rs) rs = upsertAll t rs := by
  have hk : ∀ r ∈ rs, rowKey r ∈ (upsertAll t rs).map rowKey :=
    fun r hr => batch_mem_keys_upsertAll hr
  rw [upsertAll_eq_map rs _ hk]
  conv_rhs => rw [show upsertAll t rs = (upsertAll t rs).map id from (List.map_id _).symm]
  apply List.map_congr_left
  intro x hx
  cases hl : lastUpd rs (rowKey x) with
  | none => rfl
  | some r' => simpa using (mem_upsertAll_lastUpd rs t x hx r' hl).symm

lemma uniqueKeys_upsertRow {t : List Row} (h : UniqueKeys t) (r : Row) :
    UniqueKeys (upsertRow t r) := by
  by_cases hm : ∃ x ∈ t, rowKey x = rowKey r
  · unfold UniqueKeys
    rw [keys_upsertRow_of_mem hm]
    exact h
  · unfold UniqueKeys
    rw [keys_upsertRow_of_not_mem hm]
    rw [List.nodup_append]
    refine ⟨h, List.nodup_singleton _, ?_⟩
    intro k hk hk'
    rw [List.mem_singleton] at hk'
    subst hk'
    obtain ⟨x, hx, hxk⟩ := List.mem_map.1 hk
    exact hm ⟨x, hx, hxk⟩

lemma uniqueKeys_upsertAll {rs : List Row} :
    ∀ {t : List Row}, UniqueKeys t → UniqueKeys (upsertAll t rs) := by
  induction rs with
  | nil => intro t h; exact h
  | cons r rest ih => intro t h; exact ih (uniqueKeys_upsertRow h r)

lemma uniqueKeys_of_reachable {t : List Row} (h : Reachable t) : UniqueKeys t := by
  induction h with
  | empty => exact List.nodup_nil
  | ingest t rows _ ih =>
    rw [ingestRows_eq_upsertAll]
    exact uniqueKeys_upsertAll ih

/-! ## Effects and the external backend

Every call the script makes to the storage backend or the network is
recorded as an effect; a `Backend` oracle decides what each call returns
and which calls raise, so that the control flow of the script can be
reproduced for any behaviour of the collaborators. -/

/-- One observable external call of the script. -/
inductive Eff where
  | getColumnNames (table : String)
  | addTextColumn (table col : String)
  | reloadSchemaCache
  | sleep (seconds : Nat)
  | upsertBatch (table : String) (idx : Nat) (batch : List Row)
  | download (period : String)
deriving DecidableEq, Repr

/-- The exceptions that can cross a function boundary in the script. -/
inductive PErr where
  | schemaMutation
  | downloadFailure
  | invalidQuarter
deriving DecidableEq, Repr

/-- Oracle for the external collaborators: per-table column listing, which
`add_text_column` calls raise, which batches come back with an error-valued
response, the content of each extracted text file (`none` = file absent),
and which period downloads succeed. -/
structure Backend where
  columns : String → List String
  addRaises : String → String → Bool
  batchError : String → Nat → Bool
  file : String → Option (List String × List Record)
  downloadOk : String → Bool

/-- The list comprehension of `ensure_columns` (line 202): headers absent
from the table's current columns and not reserved, in header order. -/
def missingCols (b : Backend) (table : String) (headers : List String) : List String :=
  headers.filter (fun h => decide (h ∉ b.columns table ∧ h ∉ KEY_COLUMNS))

/-- The `for col in new_cols` loop of `ensure_columns` (lines 208-212):
one `add_text_column` call per missing column, stopping when a call
raises.  Returns the attempted calls and whether the loop completed. -/
def addLoop (b : Backend) (table : String) : List String → List Eff × Bool
  | [] => ([], true)
  | c :: cs =>
    if b.addRaises table c then ([Eff.addTextColumn table c], false)
    else
      let r := addLoop b table cs
      (Eff.addTextColumn table c :: r.1, r.2)

/-- Function `ensure_columns` (lines 195-216): query the current columns, compute the
missing ones, return at once if none; otherwise add each, then reload the
schema cache and sleep one second.  The Boolean is false when an addition
raised (`SchemaMutationError`), in which case the exception escapes before
the reload. -/
def ensure_columns (b : Backend) (table : String) (headers : List String) :
    List Eff × Bool :=
  let new_cols := missingCols b table headers
  if new_cols = [] then ([Eff.getColumnNames table], true)
  else
    let r := addLoop b table new_cols
    (Eff.getColumnNames table ::
       (r.1 ++ (if r.2 then [Eff.reloadSchemaCache, Eff.sleep 1] else [])),
     r.2)

instance {ε α : Type} [DecidableEq ε] [DecidableEq α] : DecidableEq (Except ε α) :=
  fun a b =>
    match a, b with
    | Except.ok x, Except.ok y =>
      if h : x = y then isTrue (congrArg _ h)
      else isFalse (fun hc => h (Except.ok.inj hc))
    | Except.error x, Except.error y =>
      if h : x = y then isTrue (congrArg _ h)
      else isFalse (fun hc => h (Except.error.inj hc))
    | Except.ok _, Except.error _ => isFalse (fun hc => Except.noConfusion hc)
    | Except.error _, Except.ok _ => isFalse (fun hc => Except.noConfusion hc)

/-- Instrumented result of one `ingest_file` call.  `outcome` is the value
the Python function returns — `len(rows)` (line 276), or the propagated
exception; `batchErrors` is the final value of the local `errors` counter
(lines 263-271), which is printed (line 275) but never returned. -/
structure FileReport where
  trace : List Eff
  outcome : Except PErr Nat
  batchErrors : Nat
deriving DecidableEq, Repr

/-- Function `ingest_file` (lines 224-276): skip an absent file; reconcile columns
(a raise escapes); project the records, dropping key-less ones; upsert in
batches of `BATCH_SIZE`, counting error-valued responses without stopping;
return the row count. -/
def ingest_file (b : Backend) (fileName table : String) (year quarter : Nat)
    (period source_url : String) : FileReport :=
  match b.file fileName with
  | none => ⟨[], Except.ok 0, 0⟩
  | some (headers, records) =>
    let e := ensure_columns b table headers
    if e.2 then
      let rows := records.filterMap
        (fun r => project headers r year quarter period source_url)
      let batches := toBatches rows
      ⟨e.1 ++ batches.enum.map (fun p => Eff.upsertBatch table p.1 p.2),
       Except.ok rows.length,
       (batches.enum.filter (fun p => b.batchError table p.1)).length⟩
    else ⟨e.1, Except.error PErr.schemaMutation, 0⟩

/-- The `for filename, table_name in SOURCE_FILES.items()` loop of
`import_quarter` (lines 296-300): files are ingested in order and their
returned row counts summed; an exception from `ingest_file` escapes the
loop (the surrounding `try` has only a `finally`), so later files are not
reached. -/
def fileLoop (b : Backend) (year quarter : Nat) (period source_url : String) :
    List (String × String) → List Eff × Except PErr Nat
  | [] => ([], Except.ok 0)
  | (fname, table) :: rest =>
    let r := ingest_file b fname table year quarter period source_url
    match r.outcome with
    | Except.error e => (r.trace, Except.error e)
    | Except.ok n =>
      let r2 := fileLoop b year quarter period source_url rest
      (r.trace ++ r2.1,
       match r2.2 with
       | Except.error e => Except.error e
       | Except.ok m => Except.ok (n + m))

/-- Function `import_quarter` (lines 284-305): parse the quarter (a failure exits),
download the archive (a failure raises before the `try`), then run the
file loop; the `finally` only removes the temp directory. -/
def import_quarter (b : Backend) (qstr : String) : List Eff × Except PErr Nat :=
  match parse_quarter qstr with
  | none => ([], Except.error PErr.invalidQuarter)
  | some (y, q) =>
    if b.downloadOk qstr then
      let r := fileLoop b y q qstr (quarter_url y q) SOURCE_FILES
      (Eff.download qstr :: r.1, r.2)
    else ([Eff.download qstr], Except.error PErr.downloadFailure)

/-- The `for q in quarters` loop of `main` (lines 336-338): quarters are
imported in order and their totals summed; an exception from
`import_quarter` escapes (there is no `try` in `main`), so later quarters
are not reached. -/
def runQuarters (b : Backend) : List String → List Eff × Except PErr Nat
  | [] => ([], Except.ok 0)
  | q :: rest =>
    let r := import_quarter b q
    match r.2 with
    | Except.error e => (r.1, Except.error e)
    | Except.ok n =>
      let r2 := runQuarters b rest
      (r.1 ++ r2.1,
       match r2.2 with
       | Except.error e => Except.error e
       | Except.ok m => Except.ok (n + m))

/-- Whether an effect writes rows to a destination table. -/
def isWrite : Eff → Bool
  | Eff.upsertBatch _ _ _ => true
  | _ => false

/-! ## Quarter-range expansion: supporting lemmas -/

lemma parse_quarter_bounds {s : String} {y q : Nat}
    (h : parse_quarter s = some (y, q)) : 1 ≤ q ∧ q ≤ 4 := by
  unfold parse_quarter at h
  split at h
  · rename_i a b c d e f g
    split_ifs at h with hc
    · obtain ⟨-, -, -, -, -, -, h7, h8⟩ := hc
      injection h with h'
      injection h' with hy hq
      subst hq
      omega
  · exact Option.noConfusion h

lemma quarterRangeAux_step (ey eqq y q : Nat) (h : y < ey ∨ (y = ey ∧ q ≤ eqq)) :
    quarterRangeAux ey eqq y q
      = quarter_label y q ::
          (if 4 ≤ q then quarterRangeAux ey eqq (y + 1) 1
           else quarterRangeAux ey eqq y (q + 1)) := by
  rw [quarterRangeAux.eq_def, dif_pos h]

lemma quarterRangeAux_stop (ey eqq y q : Nat) (h : ¬ (y < ey ∨ (y = ey ∧ q ≤ eqq))) :
    quarterRangeAux ey eqq y q = [] := by
  rw [quarterRangeAux.eq_def, dif_neg h]

/-- The loop of `quarter_range` enumerates exactly the consecutive quarter
codes from the start to the end quarter. -/
lemma quarterRangeAux_eq {eqq : Nat} (he1 : 1 ≤ eqq) (he4 : eqq ≤ 4) :
    ∀ n ey y q, 1 ≤ q → q ≤ 4 → n = 4 * ey + eqq + 1 - (4 * y + q) →
      quarterRangeAux ey eqq y q
        = (List.range' (4 * y + q - 1) n).map
            (fun e => quarter_label (e / 4) (e % 4 + 1)) := by
  intro n
  induction n with
  | zero =>
    intro ey y q hq1 hq4 hn
    rw [quarterRangeAux_stop ey eqq y q (by omega)]
    simp
  | succ m ih =>
    intro ey y q hq1 hq4 hn
    have hguard : y < ey ∨ (y = ey ∧ q ≤ eqq) := by omega
    rw [quarterRangeAux_step ey eqq y q hguard]
    rw [List.range'_succ, show 4 * y + q - 1 + 1 = 4 * y + q from by omega,
        List.map_cons]
    have hdiv : (4 * y + q - 1) / 4 = y := by omega
    have hmod : (4 * y + q - 1) % 4 + 1 = q := by omega
    rw [hdiv, hmod]
    congr 1
    by_cases hq : 4 ≤ q
    · rw [if_pos hq]
      rw [ih ey (y + 1) 1 (by omega) (by omega) (by omega)]
      rw [show 4 * (y + 1) + 1 - 1 = 4 * y + q from by omega]
    · rw [if_neg hq]
      rw [ih ey y (q + 1) (by omega) (by omega) (by omega)]
      rw [show 4 * y + (q + 1) - 1 = 4 * y + q from by omega]

/-! ## Row projector: supporting lemmas -/

lemma project_eq_none_iff (headers : List String) (record : Record)
    (y q : Nat) (p u : String) :
    project headers record y q p u = none
      ↔ pystrip (pyGetOr record "CU_NUMBER" "CU_Number") = "" := by
  unfold project
  by_cases h : pystrip (pyGetOr record "CU_NUMBER" "CU_Number") = ""
  · simp [h]
  · simp [h]

lemma lookup_pair_map {l : List String} {f : String → Val} {h : String}
    (hm : h ∈ l) : (l.map (fun x => (x, f x))).lookup h = some (f h) := by
  induction l with
  | nil => cases hm
  | cons a rest ih =>
    by_cases hha : h = a
    · subst hha
      simp [List.lookup]
    · have hr : h ∈ rest := by
        rcases List.mem_cons.1 hm with h' | h'
        · exact absurd h' hha
        · exact h'
      have hb : (h == a) = false := beq_eq_false_iff_ne.2 hha
      rw [List.map_cons, List.lookup, hb]
      exact ih hr

lemma map_fst_pairing (l : List String) (f : String → Val) :
    (l.map (fun x => (x, f x))).map Prod.fst = l := by
  induction l with
  | nil => rfl
  | cons a rest ih => simp [ih]

lemma lookup_append_of_none {α β : Type} [BEq α] {l1 : List (α × β)}
    (l2 : List (α × β)) {a : α} (h : l1.lookup a = none) :
    (l1 ++ l2).lookup a = l2.lookup a := by
  induction l1 with
  | nil => rfl
  | cons p rest ih =>
    obtain ⟨k, v⟩ := p
    rw [List.cons_append]
    simp only [List.lookup] at h ⊢
    cases hak : a == k with
    | true => rw [hak] at h; exact Option.noConfusion h
    | false =>
      rw [hak] at h
      exact ih h

/-- The keys of a projected row, in insertion order: the six metadata
columns then the non-reserved headers. -/
lemma project_keys (headers : List String) (record : Record)
    (y q : Nat) (p u : String) (row : Row)
    (hp : project headers record y q p u = some row) :
    row.map Prod.fst
      = METADATA_COLUMNS ++ headers.filter (fun h => decide (h ∉ KEY_COLUMNS)) := by
  unfold project at hp
  by_cases h : pystrip (pyGetOr record "CU_NUMBER" "CU_Number") = ""
  · simp [h] at hp
  · simp only [h, if_neg] at hp
    injection hp with hp
    subst hp
    rw [List.map_append, map_fst_pairing]
    rfl

/-- A non-reserved column name never hits the six metadata entries. -/
lemma base_lookup_none (v1 v2 v3 v4 v5 v6 : Val) {h : String}
    (hk : h ∉ KEY_COLUMNS) :
    (([("cu_number", v1), ("cycle_date", v2), ("year", v3), ("quarter", v4),
       ("period", v5), ("source_url", v6)] : Row).lookup h) = none := by
  have hb : ∀ c ∈ KEY_COLUMNS, (h == c) = false :=
    fun c hc => beq_eq_false_iff_ne.2 (fun he => hk (he ▸ hc))
  simp [List.lookup, hb "cu_number" (by decide), hb "cycle_date" (by decide),
        hb "year" (by decide), hb "quarter" (by decide),
        hb "period" (by decide), hb "source_url" (by decide)]

/-- The value a projected row holds for a non-reserved header. -/
lemma project_lookup (headers : List String) (record : Record)
    (y q : Nat) (p u : String) (row : Row)
    (hp : project headers record y q p u = some row)
    (h : String) (hh : h ∈ headers) (hk : h ∉ KEY_COLUMNS) :
    row.lookup h = some (spreadVal record h) := by
  unfold project at hp
  by_cases hcu : pystrip (pyGetOr record "CU_NUMBER" "CU_Number") = ""
  · simp [hcu] at hp
  · simp only [hcu, if_neg] at hp
    injection hp with hp
    subst hp
    rw [lookup_append_of_none _ (base_lookup_none _ _ _ _ _ _ hk)]
    exact lookup_pair_map (List.mem_filter.2 ⟨hh, by simpa using hk⟩)

/-! ## Reconciliation and ingestion traces: supporting lemmas -/

lemma addLoop_ok (b : Backend) (table : String) {cols : List String}
    (h : ∀ c ∈ cols, b.addRaises table c = false) :
    addLoop b table cols = (cols.map (Eff.addTextColumn table), true) := by
  induction cols with
  | nil => rfl
  | cons c cs ih =>
    have hc : b.addRaises table c = false := h c (List.mem_cons_self c cs)
    simp only [addLoop, hc, Bool.false_eq_true, if_false, List.map_cons]
    rw [ih (fun c hc => h c (List.mem_cons_of_mem _ hc))]

lemma ensure_trace (b : Backend) (table : String) (headers : List String)
    (h : ∀ c ∈ missingCols b table headers, b.addRaises table c = false) :
    ensure_columns b table headers
      = (Eff.getColumnNames table ::
          ((missingCols b table headers).map (Eff.addTextColumn table)
            ++ (if missingCols b table headers = [] then []
                else [Eff.reloadSchemaCache, Eff.sleep 1])),
         true) := by
  unfold ensure_columns
  by_cases hm : missingCols b table headers = []
  · simp [hm]
  · simp only [hm, if_neg, if_false]
    rw [addLoop_ok b table h]
    simp [hm]

lemma addLoop_no_write (b : Backend) (table : String) (cols : List String) :
    ∀ e ∈ (addLoop b table cols).1, isWrite e = false := by
  induction cols with
  | nil => intro e he; cases he
  | cons c cs ih =>
    intro e he
    by_cases hc : b.addRaises table c
    · simp only [addLoop, hc, if_true] at he
      rw [List.mem_singleton] at he
      subst he
      rfl
    · simp only [addLoop, hc, Bool.false_eq_true, if_false] at he
      rcases List.mem_cons.1 he with h' | h'
      · subst h'; rfl
      · exact ih e h'

lemma ensure_no_write (b : Backend) (table : String) (headers : List String) :
    ∀ e ∈ (ensure_columns b table headers).1, isWrite e = false := by
  unfold ensure_columns
  by_cases hm : missingCols b table headers = []
  · simp only [hm, if_true]
    intro e he
    rw [List.mem_singleton] at he
    subst he
    rfl
  · simp only [hm, if_neg, if_false]
    intro e he
    rcases List.mem_cons.1 he with h' | h'
    · subst h'; rfl
    · rcases List.mem_append.1 h' with h'' | h''
      · exact addLoop_no_write b table _ e h''
      · by_cases hr : (addLoop b table (missingCols b table headers)).2
        · simp only [hr, if_true] at h''
          rcases List.mem_cons.1 h'' with h3 | h3
          · subst h3; rfl
          · rw [List.mem_singleton] at h3; subst h3; rfl
        · simp only [hr, Bool.false_eq_true, if_false] at h''
          cases h''

/-- The trace of one file ingestion when the file is present and
reconciliation succeeds. -/
lemma ingest_trace_ok (b : Backend) (fname table : String) (y q : Nat)
    (p u : String) (headers : List String) (records : List Record)
    (hf : b.file fname = some (headers, records))
    (hok : (ensure_columns b table headers).2 = true) :
    ingest_file b fname table y q p u
      = ⟨(ensure_columns b table headers).1
           ++ (toBatches (records.filterMap (fun r => project headers r y q p u))).enum.map
               (fun pr => Eff.upsertBatch table pr.1 pr.2),
         Except.ok (records.filterMap (fun r => project headers r y q p u)).length,
         ((toBatches (records.filterMap (fun r => project headers r y q p u))).enum.filter
             (fun pr => b.batchError table pr.1)).length⟩ := by
  unfold ingest_file
  rw [hf]
  simp only [hok, if_true]

/-- The trace of one file ingestion when reconciliation raises. -/
lemma ingest_trace_err (b : Backend) (fname table : String) (y q : Nat)
    (p u : String) (headers : List String) (records : List Record)
    (hf : b.file fname = some (headers, records))
    (hok : (ensure_columns b table headers).2 = false) :
    ingest_file b fname table y q p u
      = ⟨(ensure_columns b table headers).1, Except.error PErr.schemaMutation, 0⟩ := by
  unfold ingest_file
  rw [hf]
  simp only [hok, Bool.false_eq_true, if_false]

/-- In every per-file trace, all non-write effects precede all writes. -/
lemma ingest_trace_split (b : Backend) (fname table : String) (y q : Nat)
    (p u : String) :
    (ingest_file b fname table y q p u).trace
      = (ingest_file b fname table y q p u).trace.filter (fun e => ! isWrite e)
        ++ (ingest_file b fname table y q p u).trace.filter (fun e => isWrite e) := by
  cases hf : b.file fname with
  | none =>
    unfold ingest_file
    rw [hf]
    rfl
  | some pr =>
    obtain ⟨headers, records⟩ := pr
    have h1 : ∀ e ∈ (ensure_columns b table headers).1, isWrite e = false :=
      ensure_no_write b table headers
    by_cases hok : (ensure_columns b table headers).2 = true
    · rw [ingest_trace_ok b fname table y q p u headers records hf hok]
      have h2 : ∀ e ∈ (toBatches (records.filterMap
            (fun r => project headers r y q p u))).enum.map
              (fun pr => Eff.upsertBatch table pr.1 pr.2), isWrite e = true := by
        intro e he
        obtain ⟨pr, -, hpr⟩ := List.mem_map.1 he
        subst hpr
        rfl
      show (ensure_columns b table headers).1 ++ _ = _
      rw [List.filter_append, List.filter_append,
          List.filter_eq_self.2 (fun a ha => by simp [h1 a ha]),
          List.filter_eq_nil_iff.2 (fun a ha => by simp [h2 a ha]),
          List.filter_eq_nil_iff.2 (fun a ha => by simp [h1 a ha]),
          List.filter_eq_self.2 (fun a ha => h2 a ha),
          List.append_nil, List.nil_append]
    · rw [ingest_trace_err b fname table y q p u headers records hf
            (Bool.of_not_eq_true hok)]
      show (ensure_columns b table headers).1 = _
      rw [List.filter_eq_self.2 (fun a ha => by simp [h1 a ha]),
          List.filter_eq_nil_iff.2 (fun a ha => by simp [h1 a ha]),
          List.append_nil]

/-- An exception from the first file of the loop aborts the loop: the trace
is the failing file's trace alone and the error is returned. -/
lemma fileLoop_error_head (b : Backend) (y q : Nat) (p u fname table : String)
    (rest : List (String × String)) (e : PErr)
    (h : (ingest_file b fname table y q p u).outcome = Except.error e) :
    fileLoop b y q p u ((fname, table) :: rest)
      = ((ingest_file b fname table y q p u).trace, Except.error e) := by
  simp only [fileLoop]
  rw [h]

/-- An exception from the first quarter aborts the run. -/
lemma runQuarters_error_head (b : Backend) (qstr : String) (rest : List String)
    (e : PErr) (h : (import_quarter b qstr).2 = Except.error e) :
    runQuarters b (qstr :: rest) = ((import_quarter b qstr).1, Except.error e) := by
  simp only [runQuarters]
  rw [h]

/-- Per-file projected-row count: one output row per record whose extracted
institution identifier is non-blank. -/
lemma projected_count (headers : List String) (y q : Nat) (p u : String) :
    ∀ records : List Record,
      (records.filterMap (fun r => project headers r y q p u)).length
        = (records.filter
            (fun r => decide (pystrip (pyGetOr r "CU_NUMBER" "CU_Number") ≠ ""))).length := by
  intro records
  induction records with
  | nil => rfl
  | cons r rest ih =>
    by_cases hc : pystrip (pyGetOr r "CU_NUMBER" "CU_Number") = ""
    · rw [List.filterMap_cons, (project_eq_none_iff headers r y q p u).2 hc]
      simp [List.filter_cons, hc, ih]
    · have hne : project headers r y q p u ≠ none :=
        fun h => hc ((project_eq_none_iff headers r y q p u).1 h)
      obtain ⟨row, hrow⟩ := Option.ne_none_iff_exists'.1 hne
      simp [List.filterMap_cons, hrow, List.filter_cons, hc, ih]

/-! ## The claims -/

/-- Claim C1: ingesting the same row list (the projected file for a period)
twice into a table yields the same final row set and count as ingesting it
once, because the write is an insert-or-update keyed on
`(cu_number, year, quarter)`; moreover on every reachable table state that
composite key identifies at most one row, so re-ingestion overwrites and
never duplicates. -/
theorem c1_ingest_idempotent (t rows : List Row) (ht : Reachable t) :
    ingestRows (ingestRows t rows) rows = ingestRows t rows
      ∧ UniqueKeys (ingestRows t rows) := by
  constructor
  · simp only [ingestRows_eq_upsertAll]
    exact upsertAll_idem t rows
  · exact uniqueKeys_of_reachable (Reachable.ingest t rows ht)

/-- Two projected rows of one quarter's file, ingested into the empty
table. -/
def c1Rows : List Row :=
  [[("cu_number", Val.s "1"), ("year", Val.n 2025), ("quarter", Val.n 3),
    ("ASSETS", Val.s "5")],
   [("cu_number", Val.s "2"), ("year", Val.n 2025), ("quarter", Val.n 3),
    ("ASSETS", Val.s "6")]]

/-- Witness for C1 at a concrete table and row list. -/
theorem c1_ingest_idempotent_witness :
    ingestRows (ingestRows [] c1Rows) c1Rows = ingestRows [] c1Rows
      ∧ UniqueKeys (ingestRows [] c1Rows) :=
  c1_ingest_idempotent [] c1Rows Reachable.empty

/-- Claim C2, counterexample: the claim says a record whose
institution-identifier field is non-empty after trimming in a recognized
header variant yields exactly one output row.  In this record the
`CU_Number` variant holds `"123"` — non-empty after trimming — yet the
record yields no output row, because `CU_NUMBER` holds whitespace (truthy
in Python), the fallback is skipped, and the trim happens afterwards. -/
theorem c2_variant_fallback_counterexample :
    pystrip ((([("CU_NUMBER", "   "), ("CU_Number", "123")] : Record).lookup
        "CU_Number").getD "") ≠ ""
      ∧ project ["CU_NUMBER", "CU_Number"]
          [("CU_NUMBER", "   "), ("CU_Number", "123")] 2025 3 "2025-Q3" "u"
          = none := by
  constructor
  · decide
  · decide

/-- Claim C2, amended: a record yields no output row exactly when the
identifier *extracted by the code's fallback* (`CU_NUMBER`, else
`CU_Number` when `CU_NUMBER` is missing or the empty string) is blank
after trimming; every record whose extracted identifier is non-blank
yields exactly one output row, so the file's row count equals the number
of such records. -/
theorem c2_key_drop_amended (headers : List String) (record : Record)
    (records : List Record) (y q : Nat) (p u : String) :
    (project headers record y q p u = none
       ↔ pystrip (pyGetOr record "CU_NUMBER" "CU_Number") = "") ∧
    (records.filterMap (fun r => project headers r y q p u)).length
      = (records.filter
          (fun r => decide (pystrip (pyGetOr r "CU_NUMBER" "CU_Number") ≠ ""))).length :=
  ⟨project_eq_none_iff headers record y q p u, projected_count headers y q p u records⟩

/-- Claim C3: in every projected row, each non-reserved source header carries
the source value verbatim (empty string becoming null), and the row's
column set is exactly the six metadata columns united with the headers
minus the reserved key columns. -/
theorem c3_verbatim_passthrough (headers : List String) (record : Record)
    (y q : Nat) (p u : String) (row : Row)
    (hp : project headers record y q p u = some row) :
    (∀ h ∈ headers, h ∉ KEY_COLUMNS →
       row.lookup h = some (if (record.lookup h).getD "" = "" then Val.null
                            else Val.s ((record.lookup h).getD ""))) ∧
    (row.map Prod.fst).toFinset
      = METADATA_COLUMNS.toFinset ∪ (headers.toFinset \ KEY_COLUMNS.toFinset) := by
  constructor
  · intro h hh hk
    rw [project_lookup headers record y q p u row hp h hh hk]
    rfl
  · rw [project_keys headers record y q p u row hp]
    ext c
    simp only [List.mem_toFinset, List.mem_append, List.mem_filter,
               Finset.mem_union, Finset.mem_sdiff, decide_eq_true_eq]

/-- Witness for C3 at a concrete file row (note `ASSETS` empty becoming
null and `CU_NUMBER` copied verbatim as a dynamic column). -/
theorem c3_verbatim_passthrough_witness :
    (∀ h ∈ ["CU_NUMBER", "ASSETS"], h ∉ KEY_COLUMNS →
       ([("cu_number", Val.s "1"), ("cycle_date", Val.null), ("year", Val.n 2025),
         ("quarter", Val.n 3), ("period", Val.s "2025-Q3"), ("source_url", Val.s "u"),
         ("CU_NUMBER", Val.s "1"), ("ASSETS", Val.null)] : Row).lookup h
         = some (if (([("CU_NUMBER", "1"), ("ASSETS", "")] : Record).lookup h).getD "" = ""
                 then Val.null
                 else Val.s ((([("CU_NUMBER", "1"), ("ASSETS", "")] : Record).lookup h).getD ""))) ∧
    (([("cu_number", Val.s "1"), ("cycle_date", Val.null), ("year", Val.n 2025),
       ("quarter", Val.n 3), ("period", Val.s "2025-Q3"), ("source_url", Val.s "u"),
       ("CU_NUMBER", Val.s "1"), ("ASSETS", Val.null)] : Row).map Prod.fst).toFinset
      = METADATA_COLUMNS.toFinset
        ∪ (["CU_NUMBER", "ASSETS"].toFinset \ KEY_COLUMNS.toFinset) :=
  c3_verbatim_passthrough ["CU_NUMBER", "ASSETS"] [("CU_NUMBER", "1"), ("ASSETS", "")]
    2025 3 "2025-Q3" "u" _ (by decide)

/-- Claim C4: column reconciliation computes the missing columns as the
headers minus the table's existing columns minus the reserved key columns;
when none are missing it makes no registry mutation call (the trace is the
column query alone); otherwise it adds each missing column in header
order, reloads the schema cache exactly once after all additions, then
sleeps one time unit — and in the per-file trace every non-write effect
precedes every row write. -/
theorem c4_reconcile_algorithm (b : Backend) (table fname : String)
    (headers : List String) (y q : Nat) (p u : String)
    (hadd : ∀ c ∈ missingCols b table headers, b.addRaises table c = false) :
    (ensure_columns b table headers).1
      = Eff.getColumnNames table ::
          ((missingCols b table headers).map (Eff.addTextColumn table)
            ++ (if missingCols b table headers = [] then []
                else [Eff.reloadSchemaCache, Eff.sleep 1])) ∧
    (ingest_file b fname table y q p u).trace
      = (ingest_file b fname table y q p u).trace.filter (fun e => ! isWrite e)
        ++ (ingest_file b fname table y q p u).trace.filter (fun e => isWrite e) := by
  refine ⟨?_, ingest_trace_split b fname table y q p u⟩
  rw [ensure_trace b table headers hadd]

/-- Backend for the C4 witness: table knows column `A`, the file offers
`A` and `B`. -/
def c4Backend : Backend :=
  { columns := fun _ => ["A"],
    addRaises := fun _ _ => false,
    batchError := fun _ _ => false,
    file := fun _ => some (["A", "B"], [[("CU_NUMBER", "9"), ("A", "x"), ("B", "")]]),
    downloadOk := fun _ => true }

/-- Witness for C4: one missing column `B` is added, the cache reloaded
once, the delay applied, and the trace splits into schema work then
writes. -/
theorem c4_reconcile_algorithm_witness :
    (ensure_columns c4Backend "bronze_foicu" ["A", "B"]).1
      = Eff.getColumnNames "bronze_foicu" ::
          ((missingCols c4Backend "bronze_foicu" ["A", "B"]).map
              (Eff.addTextColumn "bronze_foicu")
            ++ (if missingCols c4Backend "bronze_foicu" ["A", "B"] = [] then []
                else [Eff.reloadSchemaCache, Eff.sleep 1])) ∧
    (ingest_file c4Backend "FOICU.txt" "bronze_foicu" 2025 3 "2025-Q3" "u").trace
      = (ingest_file c4Backend "FOICU.txt" "bronze_foicu" 2025 3 "2025-Q3" "u").trace.filter
          (fun e => ! isWrite e)
        ++ (ingest_file c4Backend "FOICU.txt" "bronze_foicu" 2025 3 "2025-Q3" "u").trace.filter
          (fun e => isWrite e) :=
  c4_reconcile_algorithm c4Backend "bronze_foicu" "FOICU.txt" ["A", "B"] 2025 3
    "2025-Q3" "u" (by decide)

/-- Backend for the C5 counterexample: every file is present with one
non-reserved header, and `add_text_column` raises exactly on table
`bronze_fs220` (the period's second file). -/
def c5Backend : Backend :=
  { columns := fun _ => [],
    addRaises := fun t _ => decide (t = "bronze_fs220"),
    batchError := fun _ _ => false,
    file := fun _ => some (["CU_NUMBER"], []),
    downloadOk := fun _ => true }

/-- Claim C5, counterexample: a `SchemaMutationError` while reconciling the
second file does *not* abort that file only — the period returns the
error, the next file (`bronze_fs220a`) is never queried, and the error
propagates past the period so the following quarter is never downloaded. -/
theorem c5_schema_error_counterexample :
    (import_quarter c5Backend "2025-Q3").2 = Except.error PErr.schemaMutation
      ∧ Eff.getColumnNames "bronze_fs220a" ∉ (import_quarter c5Backend "2025-Q3").1
      ∧ (runQuarters c5Backend ["2025-Q3", "2025-Q4"]).2 = Except.error PErr.schemaMutation
      ∧ Eff.download "2025-Q4" ∉ (runQuarters c5Backend ["2025-Q3", "2025-Q4"]).1 := by
  exact ⟨by decide, by decide, by decide, by decide⟩

/-- Claim C5, amended: a `SchemaMutationError` raised during reconciliation
aborts not just the current file but everything after it: the file loop
stops at the failing file (its trace is all that happens) and the error
propagates through the period to terminate the whole run. -/
theorem c5_schema_error_amended (b : Backend) (y q : Nat) (p u fname table : String)
    (rest : List (String × String)) (qstr : String) (more : List String) (e : PErr)
    (h1 : (ingest_file b fname table y q p u).outcome = Except.error e)
    (h2 : (import_quarter b qstr).2 = Except.error e) :
    fileLoop b y q p u ((fname, table) :: rest)
      = ((ingest_file b fname table y q p u).trace, Except.error e) ∧
    runQuarters b (qstr :: more) = ((import_quarter b qstr).1, Except.error e) :=
  ⟨fileLoop_error_head b y q p u fname table rest e h1,
   runQuarters_error_head b qstr more e h2⟩

/-- Witness for the amended C5 at the concrete failing backend. -/
theorem c5_schema_error_amended_witness :
    fileLoop c5Backend 2025 3 "2025-Q3" "u"
        [("FS220.txt", "bronze_fs220"), ("FS220A.txt", "bronze_fs220a")]
      = ((ingest_file c5Backend "FS220.txt" "bronze_fs220" 2025 3 "2025-Q3" "u").trace,
         Except.error PErr.schemaMutation) ∧
    runQuarters c5Backend ["2025-Q3", "2025-Q4"]
      = ((import_quarter c5Backend "2025-Q3").1, Except.error PErr.schemaMutation) :=
  c5_schema_error_amended c5Backend 2025 3 "2025-Q3" "u" "FS220.txt" "bronze_fs220"
    [("FS220A.txt", "bronze_fs220a")] "2025-Q3" ["2025-Q4"] PErr.schemaMutation
    (by decide) (by decide)

/-- Claim C6: batch failures are isolated: whatever batches the backend
fails, the per-file trace still submits every one of the `N` batches of
the projected rows in order, the local error counter ends equal to the
number of failing batches, and the function still returns the full row
count. -/
theorem c6_batch_isolation (b : Backend) (fname table : String) (y q : Nat)
    (p u : String) (headers : List String) (records : List Record)
    (hf : b.file fname = some (headers, records))
    (hok : (ensure_columns b table headers).2 = true) :
    (ingest_file b fname table y q p u).trace
      = (ensure_columns b table headers).1
        ++ (toBatches (records.filterMap (fun r => project headers r y q p u))).enum.map
            (fun pr => Eff.upsertBatch table pr.1 pr.2) ∧
    (ingest_file b fname table y q p u).outcome
      = Except.ok (records.filterMap (fun r => project headers r y q p u)).length ∧
    (ingest_file b fname table y q p u).batchErrors
      = ((toBatches (records.filterMap (fun r => project headers r y q p u))).enum.filter
          (fun pr => b.batchError table pr.1)).length := by
  rw [ingest_trace_ok b fname table y q p u headers records hf hok]
  exact ⟨rfl, rfl, rfl⟩

/-- Backend for the C6 witness: 201 records (two batches) and a failure
injected into batch 0 only. -/
def c6Backend : Backend :=
  { columns := fun _ => ["CU_NUMBER"],
    addRaises := fun _ _ => false,
    batchError := fun _ i => decide (i = 0),
    file := fun _ => some (["CU_NUMBER"], List.replicate 201 [("CU_NUMBER", "1")]),
    downloadOk := fun _ => true }

/-- Witness for C6: with one failing batch out of two, both batches are
still submitted and the failure is counted. -/
theorem c6_batch_isolation_witness :
    (ingest_file c6Backend "FOICU.txt" "bronze_foicu" 2025 3 "2025-Q3" "u").trace
      = (ensure_columns c6Backend "bronze_foicu" ["CU_NUMBER"]).1
        ++ (toBatches ((List.replicate 201 [("CU_NUMBER", "1")]).filterMap
              (fun r => project ["CU_NUMBER"] r 2025 3 "2025-Q3" "u"))).enum.map
            (fun pr => Eff.upsertBatch "bronze_foicu" pr.1 pr.2) ∧
    (ingest_file c6Backend "FOICU.txt" "bronze_foicu" 2025 3 "2025-Q3" "u").outcome
      = Except.ok ((List.replicate 201 [("CU_NUMBER", "1")]).filterMap
          (fun r => project ["CU_NUMBER"] r 2025 3 "2025-Q3" "u")).length ∧
    (ingest_file c6Backend "FOICU.txt" "bronze_foicu" 2025 3 "2025-Q3" "u").batchErrors
      = ((toBatches ((List.replicate 201 [("CU_NUMBER", "1")]).filterMap
            (fun r => project ["CU_NUMBER"] r 2025 3 "2025-Q3" "u"))).enum.filter
          (fun pr => c6Backend.batchError "bronze_foicu" pr.1)).length :=
  c6_batch_isolation c6Backend "FOICU.txt" "bronze_foicu" 2025 3 "2025-Q3" "u"
    ["CU_NUMBER"] (List.replicate 201 [("CU_NUMBER", "1")]) rfl (by decide)

/-- Backend for the C7 counterexample: all archives download except
`2024-Q4`; no file is ever found (so quarters otherwise succeed with zero
rows). -/
def c7Backend : Backend :=
  { columns := fun _ => [],
    addRaises := fun _ _ => false,
    batchError := fun _ _ => false,
    file := fun _ => none,
    downloadOk := fun qs => decide (qs ≠ "2024-Q4") }

/-- Claim C7, counterexample: a download failure for the middle period of
three does *not* let the run continue — the whole run returns the error
and the third period is never attempted. -/
theorem c7_period_isolation_counterexample :
    (runQuarters c7Backend ["2024-Q3", "2024-Q4", "2025-Q1"]).2
        = Except.error PErr.downloadFailure
      ∧ Eff.download "2025-Q1" ∉ (runQuarters c7Backend ["2024-Q3", "2024-Q4", "2025-Q1"]).1 := by
  exact ⟨by decide, by decide⟩

/-- Claim C7, amended: a failure acquiring one period's archive terminates
the whole multi-period run at that period: the run's result is the
download error and no later period is processed (the remaining trace is
just the failing download attempt). -/
theorem c7_download_failure_amended (b : Backend) (qstr : String)
    (rest : List String) (y q : Nat)
    (hp : parse_quarter qstr = some (y, q)) (hd : b.downloadOk qstr = false) :
    runQuarters b (qstr :: rest)
      = ([Eff.download qstr], Except.error PErr.downloadFailure) := by
  have himp : import_quarter b qstr
      = ([Eff.download qstr], Except.error PErr.downloadFailure) := by
    unfold import_quarter
    rw [hp]
    simp [hd]
  rw [runQuarters_error_head b qstr rest PErr.downloadFailure (by rw [himp])]
  rw [himp]

/-- Witness for the amended C7. -/
theorem c7_download_failure_amended_witness :
    runQuarters c7Backend ["2024-Q4", "2025-Q1"]
      = ([Eff.download "2024-Q4"], Except.error PErr.downloadFailure) :=
  c7_download_failure_amended c7Backend "2024-Q4" ["2025-Q1"] 2024 4
    (by decide) (by decide)

/-- Backend for the C8 counterexample, successful-batches variant: one
file with one record, table already has the column. -/
def c8aBackend : Backend :=
  { columns := fun _ => ["CU_NUMBER"],
    addRaises := fun _ _ => false,
    batchError := fun _ _ => false,
    file := fun _ => some (["CU_NUMBER"], [[("CU_NUMBER", "1")]]),
    downloadOk := fun _ => true }

/-- The same backend with every batch failing. -/
def c8bBackend : Backend :=
  { c8aBackend with batchError := fun _ _ => true }

/-- Claim C8, counterexample: the claim says per-file ingestion returns both
the row count and the error count.  These two runs differ only in batch
failures — their error counters end at 0 and 1 — yet the function returns
the identical value in both, so the returned value cannot carry the error
count (it is `len(rows)` alone; the counter is only printed). -/
theorem c8_report_counterexample :
    (ingest_file c8aBackend "FOICU.txt" "bronze_foicu" 2025 3 "2025-Q3" "u").outcome
        = (ingest_file c8bBackend "FOICU.txt" "bronze_foicu" 2025 3 "2025-Q3" "u").outcome
      ∧ (ingest_file c8aBackend "FOICU.txt" "bronze_foicu" 2025 3 "2025-Q3" "u").batchErrors = 0
      ∧ (ingest_file c8bBackend "FOICU.txt" "bronze_foicu" 2025 3 "2025-Q3" "u").batchErrors = 1 := by
  exact ⟨by decide, by decide, by decide⟩

/-- The `add_text_column` behaviour does not depend on the batch oracle. -/
lemma addLoop_same (b : Backend) (bErr : String → Nat → Bool) (table : String) :
    ∀ cols, addLoop { b with batchError := bErr } table cols = addLoop b table cols := by
  intro cols
  induction cols with
  | nil => rfl
  | cons c cs ih =>
    by_cases hc : b.addRaises table c = true <;> simp [addLoop, hc, ih]

/-- Reconciliation does not depend on the batch oracle. -/
lemma ensure_same (b : Backend) (bErr : String → Nat → Bool)
    (table : String) (headers : List String) :
    ensure_columns { b with batchError := bErr } table headers
      = ensure_columns b table headers := by
  simp only [ensure_columns, missingCols, addLoop_same]

/-- Claim C8, amended: per-file ingestion returns only the row count — the
returned value is unchanged by any injection of batch failures — while the
local error counter (printed, not returned) ends equal to the number of
failing batches; no structured per-batch failure list or success total is
built. -/
theorem c8_report_amended (b : Backend) (bErr : String → Nat → Bool)
    (fname table : String) (y q : Nat) (p u : String)
    (headers : List String) (records : List Record)
    (hf : b.file fname = some (headers, records))
    (hok : (ensure_columns b table headers).2 = true) :
    (ingest_file { b with batchError := bErr } fname table y q p u).outcome
      = (ingest_file b fname table y q p u).outcome ∧
    (ingest_file b fname table y q p u).outcome
      = Except.ok (records.filterMap (fun r => project headers r y q p u)).length ∧
    (ingest_file b fname table y q p u).batchErrors
      = ((toBatches (records.filterMap (fun r => project headers r y q p u))).enum.filter
          (fun pr => b.batchError table pr.1)).length := by
  have hf2 : ({ b with batchError := bErr } : Backend).file fname = some (headers, records) := hf
  have hok2 : (ensure_columns { b with batchError := bErr } table headers).2 = true := by
    rw [ensure_same]
    exact hok
  rw [ingest_trace_ok b fname table y q p u headers records hf hok,
      ingest_trace_ok { b with batchError := bErr } fname table y q p u headers records hf2 hok2]
  exact ⟨rfl, rfl, rfl⟩

/-- Witness for the amended C8. -/
theorem c8_report_amended_witness :
    (ingest_file { c8aBackend with batchError := fun _ _ => true } "FOICU.txt"
        "bronze_foicu" 2025 3 "2025-Q3" "u").outcome
      = (ingest_file c8aBackend "FOICU.txt" "bronze_foicu" 2025 3 "2025-Q3" "u").outcome ∧
    (ingest_file c8aBackend "FOICU.txt" "bronze_foicu" 2025 3 "2025-Q3" "u").outcome
      = Except.ok ([[("CU_NUMBER", "1")]].filterMap
          (fun r => project ["CU_NUMBER"] r 2025 3 "2025-Q3" "u")).length ∧
    (ingest_file c8aBackend "FOICU.txt" "bronze_foicu" 2025 3 "2025-Q3" "u").batchErrors
      = ((toBatches ([[("CU_NUMBER", "1")]].filterMap
            (fun r => project ["CU_NUMBER"] r 2025 3 "2025-Q3" "u"))).enum.filter
          (fun pr => c8aBackend.batchError "bronze_foicu" pr.1)).length :=
  c8_report_amended c8aBackend (fun _ _ => true) "FOICU.txt" "bronze_foicu" 2025 3
    "2025-Q3" "u" ["CU_NUMBER"] [[("CU_NUMBER", "1")]] rfl (by decide)

/-- Claim C9: for valid `YYYY-QN` endpoints with the start not after the end,
`quarter_range` returns the chronologically ordered inclusive enumeration
of every quarter from start to end (Q4 wrapping to Q1 of the next
year). -/
theorem c9_quarter_range_chrono (s e : String) (sy sq ey eqq : Nat)
    (hs : parse_quarter s = some (sy, sq)) (he : parse_quarter e = some (ey, eqq))
    (hle : sy < ey ∨ (sy = ey ∧ sq ≤ eqq)) :
    quarter_range s e = some (chronoQuarters sy sq ey eqq) := by
  obtain ⟨hs1, hs4⟩ := parse_quarter_bounds hs
  obtain ⟨he1, he4⟩ := parse_quarter_bounds he
  have hmain := quarterRangeAux_eq he1 he4 (4 * ey + eqq + 1 - (4 * sy + sq))
    ey sy sq hs1 hs4 rfl
  have hne : quarterRangeAux ey eqq sy sq ≠ [] := by
    rw [hmain]
    have hn : 4 * ey + eqq + 1 - (4 * sy + sq) ≠ 0 := by omega
    intro hcontra
    rw [List.map_eq_nil_iff, List.range'_eq_nil] at hcontra
    exact hn hcontra
  unfold quarter_range
  simp only [hs, he]
  rw [if_neg hne, hmain]
  rfl

/-- Witness for C9: the spec's own example `2024-Q3 .. 2025-Q1`. -/
theorem c9_quarter_range_chrono_witness :
    quarter_range "2024-Q3" "2025-Q1" = some ["2024-Q3", "2024-Q4", "2025-Q1"] := by
  have h := c9_quarter_range_chrono "2024-Q3" "2025-Q1" 2024 3 2025 1
    (by decide) (by decide) (by decide)
  rw [h]
  decide

/-- Claim C10: when `CU_NUMBER` holds a whitespace-only (hence truthy,
non-empty) value, the `CU_Number` fallback is never consulted: the record
is dropped even though `CU_Number` holds a non-blank identifier, because
the fallback fires only on a missing or empty-string value and trimming
happens after the fallback choice. -/
theorem c10_whitespace_blocks_fallback (headers : List String) (record : Record)
    (y q : Nat) (p u : String) (w v : String)
    (h1 : record.lookup "CU_NUMBER" = some w) (h2 : w ≠ "") (h3 : pystrip w = "")
    (h4 : record.lookup "CU_Number" = some v) (h5 : pystrip v ≠ "") :
    project headers record y q p u = none := by
  rw [project_eq_none_iff]
  unfold pyGetOr
  rw [h1]
  simp only [h2, if_neg]
  exact h3

/-- Witness for C10. -/
theorem c10_whitespace_blocks_fallback_witness :
    project ["CU_NUMBER", "CU_Number"] [("CU_NUMBER", "  "), ("CU_Number", "77")]
      2025 3 "2025-Q3" "u" = none :=
  c10_whitespace_blocks_fallback ["CU_NUMBER", "CU_Number"]
    [("CU_NUMBER", "  "), ("CU_Number", "77")] 2025 3 "2025-Q3" "u" "  " "77"
    (by decide) (by decide) (by decide) (by decide) (by decide)

end Bronze
